import Mathlib

/-!
Shallow embedding of `sknetwork/utils/parse.py` (scikit-network):
`edgelist2adjacency` and `edgelist2biadjacency`, together with the
numpy/scipy operations they invoke: `np.array`, column slicing,
`astype(np.int32)`, `.max()`, `np.ones_like(..., dtype=bool)`, and the
`sparse.csr_matrix((data, (row, col)), shape)` COO-to-CSR constructor,
which sums duplicate coordinates (logical or for boolean data) and
produces rows whose stored column indices are strictly increasing.

Python scalars are modelled by `PyNum` (an int or a float, floats kept as
exact rationals; every weight appearing in the examples is exactly
representable, so rational arithmetic coincides with float64 there).
Matrix values are rationals, with the numpy dtype tracked separately by
`Dtype`.  Python exceptions are modelled by `PyErr`; the spec's typed
error taxonomy (`EmptyInput`, `IndexOverflow`, `MalformedEdge`,
`NegativeIndex`) is included as constructors so that claims about it can
be stated, even where the code never raises them.
-/

/-- numpy dtypes that the conversion routines can produce. -/
inductive Dtype where
  | bool | int64 | float64
deriving DecidableEq, Repr

/-- Failure outcomes.  `IndexError` and `ValueError` model the Python
exceptions the code can raise; the remaining constructors are the spec's
typed error taxonomy, never raised by the code. -/
inductive PyErr where
  | IndexError | ValueError | EmptyInput | IndexOverflow | MalformedEdge | NegativeIndex
deriving DecidableEq, Repr

/-- A Python numeric scalar: an `int` or a `float` (floats as exact
rationals). -/
inductive PyNum where
  | int (z : ℤ) | float (q : ℚ)
deriving DecidableEq, Repr

def PyNum.toQ : PyNum → ℚ
  | .int z => (z : ℚ)
  | .float q => q

def PyNum.isInt : PyNum → Bool
  | .int _ => true
  | .float _ => false

/-- Wrap an integer into the int32 range [-2^31, 2^31), as numpy's
`.astype(np.int32)` does on int64 input. -/
def toInt32 (z : ℤ) : ℤ := (z + 2 ^ 31) % 2 ^ 32 - 2 ^ 31

/-- Truncation toward zero, the C float-to-int conversion. -/
def truncQ (q : ℚ) : ℤ := q.num.tdiv q.den

/-- One cell under `.astype(np.int32)`: truncate (floats), then wrap into
the int32 range. -/
def cast32 (q : ℚ) : ℤ := toInt32 (truncQ q)

/-- A 2-D numpy array as produced by `np.array(edgelist)`: a dtype, the
common record length, and the rows, with every cell coerced to the dtype's
value domain (exact rationals here). -/
structure NpArr where
  dtype : Dtype
  ncols : ℕ
  rows : List (List ℚ)
deriving DecidableEq, Repr

/-- `np.array(edgelist)` for a list of numeric records: a 2-D array when
all records share one length, with dtype int64 when every cell is a Python
int and float64 otherwise.  A ragged list does not produce a 2-D numeric
array and is modelled as a ValueError.  An empty list yields the 1-D empty
array, modelled as `ncols = 0` so that any 2-D column slice of it fails as
in numpy (its dtype is never consulted on that path). -/
def npArray (l : List (List PyNum)) : Except PyErr NpArr :=
  if l.all (fun r => r.length == (l.headD []).length) then
    .ok ⟨if l.all (fun r => r.all PyNum.isInt) then .int64 else .float64,
         (l.headD []).length, l.map (fun r => r.map PyNum.toQ)⟩
  else .error .ValueError

/-- `edges[:, j]`: column `j` of a 2-D array; IndexError when the column
does not exist (also what 2-D indexing of the 1-D empty array raises). -/
def sliceCol (a : NpArr) (j : ℕ) : Except PyErr (List ℚ) :=
  if j < a.ncols then .ok (a.rows.map (fun r => r.getD j 0)) else .error .IndexError

/-- `.max()` of a numpy integer vector.  The code only reaches it on
nonempty vectors; the empty case is never used. -/
def npMax : List ℤ → ℤ
  | [] => 0
  | x :: xs => xs.foldl max x

/-- Accumulation of duplicate COO values under a dtype: numeric dtypes
sum; scipy instantiates its C++ kernels at `npy_bool_wrapper`, whose
addition is logical or, so boolean data saturates at true. -/
def sumVals (dt : Dtype) (l : List ℚ) : ℚ :=
  match dt with
  | .bool => if l.any (fun v => decide (v ≠ 0)) then 1 else 0
  | _ => l.sum

/-- The value stored at coordinate `(r, c)`: the accumulated values of all
COO entries at that coordinate, or nothing when there are none. -/
def cellVal (dt : Dtype) (es : List (ℕ × ℕ × ℚ)) (r c : ℕ) : Option ℚ :=
  let vs := (es.filter (fun e => e.1 == r && e.2.1 == c)).map (fun e => e.2.2)
  if vs.isEmpty then none else some (sumVals dt vs)

/-- Row `r` of the canonical CSR built from COO entries: stored columns in
increasing order, values accumulated. -/
def rowOf (dt : Dtype) (es : List (ℕ × ℕ × ℚ)) (nc r : ℕ) : List (ℕ × ℚ) :=
  (List.range nc).filterMap (fun c => (cellVal dt es r c).map (fun v => (c, v)))

/-- A CSR matrix in scipy's canonical form: one (column, value) list per
row, columns strictly increasing, duplicates already summed.  The
`indptr`, `indices` and `data` arrays are the derived views below. -/
structure CSR where
  dtype : Dtype
  ncols : ℕ
  rows : List (List (ℕ × ℚ))
deriving DecidableEq, Repr

def CSR.nRows (A : CSR) : ℕ := A.rows.length

/-- Number of stored entries (`.nnz`). -/
def CSR.nnz (A : CSR) : ℕ := (A.rows.map List.length).sum

/-- The CSR row-pointer array as a function: `indptr r` is the number of
stored entries in rows before `r`. -/
def CSR.indptr (A : CSR) (r : ℕ) : ℕ := ((A.rows.take r).map List.length).sum

/-- The logical entry at `(r, c)`: the stored value, 0 when absent. -/
def CSR.entry (A : CSR) (r c : ℕ) : ℚ := ((A.rows.getD r []).lookup c).getD 0

/-- The stored entries as (row, col, value) triples. -/
def CSR.entries (A : CSR) : List (ℕ × ℕ × ℚ) :=
  (A.rows.enum.map (fun p => p.2.map (fun cv => (p.1, cv.1, cv.2)))).flatten

/-- Build the canonical CSR of shape `nr × nc` from COO entries,
accumulating duplicate coordinates. -/
def buildCSR (dt : Dtype) (nr nc : ℕ) (es : List (ℕ × ℕ × ℚ)) : CSR :=
  ⟨dt, nc, (List.range nr).map (rowOf dt es nc)⟩

/-- `sparse.csr_matrix((data, (row, col)), shape=(nr, nc))`: scipy
validates the shape and the index ranges (ValueError on a negative shape,
mismatched buffer lengths, or an index that is negative or out of range),
then converts COO to CSR, summing duplicates and sorting each row. -/
def csr_matrix (dt : Dtype) (nr nc : ℤ) (row col : List ℤ) (data : List ℚ) :
    Except PyErr CSR :=
  if nr < 0 ∨ nc < 0 then .error .ValueError
  else if ¬ (row.length = col.length ∧ col.length = data.length) then .error .ValueError
  else if row.any (fun i => decide (i < 0 ∨ nr ≤ i)) ∨ col.any (fun j => decide (j < 0 ∨ nc ≤ j)) then
    .error .ValueError
  else
    .ok (buildCSR dt nr.toNat nc.toNat
      ((row.zip (col.zip data)).map (fun p => (p.1.toNat, p.2.1.toNat, p.2.2))))

/-- Transpose a COO entry. -/
def swapE (e : ℕ × ℕ × ℚ) : ℕ × ℕ × ℚ := (e.2.1, e.1, e.2.2)

/-- Modelled from the spec: `directed2undirected` (imported from
`sknetwork.utils`; its code is not part of this fragment) maps a square
sparse matrix to the entry-wise combination of the matrix and its
transpose — sum for numeric data, union for boolean data. -/
def directed2undirected (A : CSR) : CSR :=
  buildCSR A.dtype A.nRows A.ncols (A.entries ++ A.entries.map swapE)

/-- `edgelist2adjacency(edgelist, undirected)` from
`sknetwork/utils/parse.py`:
`edges = np.array(edgelist)`;
`row, col = edges[:, 0].astype(np.int32), edges[:, 1].astype(np.int32)`;
`n = max(row.max(), col.max()) + 1`;
`data = edges[:, 2]` when records have more than 2 fields, else
`np.ones_like(row, dtype=bool)`;
`adjacency = sparse.csr_matrix((data, (row, col)), shape=(n, n))`,
symmetrized by `directed2undirected` when `undirected` is set. -/
def edgelist2adjacency (edgelist : List (List PyNum)) (undirected : Bool) :
    Except PyErr CSR :=
  match npArray edgelist with
  | .error e => .error e
  | .ok edges =>
    match sliceCol edges 0, sliceCol edges 1 with
    | .error e, _ => .error e
    | .ok _, .error e => .error e
    | .ok col0, .ok col1 =>
      -- row = col0.astype(int32), col = col1.astype(int32),
      -- n = max(row.max(), col.max()) + 1,
      -- data = edges[:, 2] when arity > 2, else np.ones_like(row, dtype=bool)
      match csr_matrix
          (if 2 < edges.ncols then edges.dtype else .bool)
          (max (npMax (col0.map cast32)) (npMax (col1.map cast32)) + 1)
          (max (npMax (col0.map cast32)) (npMax (col1.map cast32)) + 1)
          (col0.map cast32) (col1.map cast32)
          (if 2 < edges.ncols then edges.rows.map (fun r => r.getD 2 0)
           else (col0.map cast32).map (fun _ => 1)) with
      | .error e => .error e
      | .ok adjacency =>
        .ok (if undirected then directed2undirected adjacency else adjacency)

/-- `edgelist2biadjacency(edgelist)` from `sknetwork/utils/parse.py`: as
above, but `n_row = row.max() + 1` and `n_col = col.max() + 1` are
computed independently and there is no symmetrization step. -/
def edgelist2biadjacency (edgelist : List (List PyNum)) : Except PyErr CSR :=
  match npArray edgelist with
  | .error e => .error e
  | .ok edges =>
    match sliceCol edges 0, sliceCol edges 1 with
    | .error e, _ => .error e
    | .ok _, .error e => .error e
    | .ok col0, .ok col1 =>
      -- row = col0.astype(int32), col = col1.astype(int32),
      -- n_row = row.max() + 1, n_col = col.max() + 1,
      -- data = edges[:, 2] when arity > 2, else np.ones_like(row, dtype=bool)
      csr_matrix
        (if 2 < edges.ncols then edges.dtype else .bool)
        (npMax (col0.map cast32) + 1) (npMax (col1.map cast32) + 1)
        (col0.map cast32) (col1.map cast32)
        (if 2 < edges.ncols then edges.rows.map (fun r => r.getD 2 0)
         else (col0.map cast32).map (fun _ => 1))

/-- An edge given as integer endpoints and an optional weight, and the
Python record it denotes. -/
def mkEdge (e : ℤ × ℤ × Option PyNum) : List PyNum :=
  match e.2.2 with
  | none => [.int e.1, .int e.2.1]
  | some w => [.int e.1, .int e.2.1, w]

/-- An index the int32 coercion leaves unchanged and whose successor is
still a valid int32 dimension. -/
def inRange32 (z : ℤ) : Prop := 0 ≤ z ∧ z ≤ 2 ^ 31 - 2

/-- The COO triple the code derives from an edge with in-range indices:
the endpoints, and the weight (1 for an unweighted edge). -/
def decodeE (e : ℤ × ℤ × Option PyNum) : ℕ × ℕ × ℚ :=
  (e.1.toNat, e.2.1.toNat, match e.2.2 with | none => 1 | some w => w.toQ)

/-- The dtype `np.array` infers for the records denoted by `l`: int64
exactly when every cell (in particular every explicit weight) is a Python
int, else float64. -/
def npDtype (l : List (ℤ × ℤ × Option PyNum)) : Dtype :=
  if l.all (fun e => e.2.2.all PyNum.isInt) then .int64 else .float64

/-- The value dtype the pipeline infers for a list of edges of uniform
arity (`w = true` for weighted, arity-3 records): boolean for unweighted
input, otherwise the array dtype. -/
def edgeDtype (l : List (ℤ × ℤ × Option PyNum)) (w : Bool) : Dtype :=
  if w then npDtype l else .bool

/-- The row dimension the code computes for an adjacency matrix built from
edges with in-range indices. -/
def adjDim (l : List (ℤ × ℤ × Option PyNum)) : ℤ :=
  max (npMax (l.map (fun e => e.1))) (npMax (l.map (fun e => e.2.1))) + 1

/-- The row dimension of a biadjacency matrix built from in-range edges. -/
def rowDim (l : List (ℤ × ℤ × Option PyNum)) : ℤ :=
  npMax (l.map (fun e => e.1)) + 1

/-- The column dimension of a biadjacency matrix built from in-range
edges. -/
def colDim (l : List (ℤ × ℤ × Option PyNum)) : ℤ :=
  npMax (l.map (fun e => e.2.1)) + 1

/-! ### List and Option helper lemmas -/

lemma init_le_foldl_max (xs : List ℤ) (b : ℤ) : b ≤ xs.foldl max b := by
  induction xs generalizing b with
  | nil => simp
  | cons x t ih => exact le_trans (le_max_left b x) (ih (max b x))

lemma mem_le_foldl_max (xs : List ℤ) (b a : ℤ) (h : a ∈ xs) : a ≤ xs.foldl max b := by
  induction xs generalizing b with
  | nil => cases h
  | cons x t ih =>
    rcases List.mem_cons.mp h with h1 | h2
    · subst h1
      exact le_trans (le_max_right b a) (init_le_foldl_max t _)
    · exact ih _ h2

lemma foldl_max_le (xs : List ℤ) (b c : ℤ) (hb : b ≤ c) (h : ∀ a ∈ xs, a ≤ c) :
    xs.foldl max b ≤ c := by
  induction xs generalizing b with
  | nil => simpa using hb
  | cons x t ih =>
    exact ih _ (max_le hb (h x (by simp))) (fun a ha => h a (by simp [ha]))

lemma le_npMax (xs : List ℤ) (a : ℤ) (h : a ∈ xs) : a ≤ npMax xs := by
  cases xs with
  | nil => cases h
  | cons x t =>
    rcases List.mem_cons.mp h with h1 | h2
    · subst h1; exact init_le_foldl_max t a
    · exact mem_le_foldl_max t x a h2

lemma npMax_le (xs : List ℤ) (c : ℤ) (hne : xs ≠ []) (h : ∀ a ∈ xs, a ≤ c) :
    npMax xs ≤ c := by
  cases xs with
  | nil => exact absurd rfl hne
  | cons x t =>
    exact foldl_max_le t x c (h x (by simp)) (fun a ha => h a (by simp [ha]))

lemma lookup_append_or {α β : Type} [BEq α] (l₁ l₂ : List (α × β)) (a : α) :
    (l₁ ++ l₂).lookup a = ((l₁.lookup a).or (l₂.lookup a)) := by
  induction l₁ with
  | nil => simp [List.lookup]
  | cons p t ih =>
    obtain ⟨x, y⟩ := p
    cases hx : (a == x) <;> simp [List.lookup, hx, ih, Option.or]

lemma lookup_filterMap_range {α : Type} (g : ℕ → Option α) (n c : ℕ) :
    ((List.range n).filterMap (fun x => (g x).map (fun v => (x, v)))).lookup c
      = if c < n then g c else none := by
  induction n with
  | zero => simp
  | succ m ih =>
    rw [List.range_succ, List.filterMap_append, lookup_append_or, ih]
    rcases lt_trichotomy c m with h | h | h
    · have hcm : ¬ (c == m) = true := by simp; omega
      rw [if_pos h, if_pos (by omega)]
      cases hgc : g c <;> cases hgm : g m <;>
        simp [hgc, hgm, List.lookup, Option.or, hcm]
    · subst h
      rw [if_neg (by omega), if_pos (by omega)]
      cases hgm : g c <;> simp [hgm, List.lookup, Option.or]
    · rw [if_neg (by omega), if_neg (by omega)]
      have hcm : ¬ (c == m) = true := by simp; omega
      cases hgm : g m <;> simp [hgm, List.lookup, Option.or, hcm]

/-! ### Structure of the canonical CSR built from COO entries -/

lemma lookup_rowOf (dt : Dtype) (es : List (ℕ × ℕ × ℚ)) (nc r c : ℕ) :
    (rowOf dt es nc r).lookup c = if c < nc then cellVal dt es r c else none :=
  lookup_filterMap_range (cellVal dt es r) nc c

lemma rowOf_pairwise (dt : Dtype) (es : List (ℕ × ℕ × ℚ)) (nc r : ℕ) :
    (rowOf dt es nc r).Pairwise (fun p q => p.1 < q.1) := by
  unfold rowOf
  rw [List.pairwise_filterMap]
  refine List.Pairwise.imp ?_ (List.pairwise_lt_range nc)
  intro a b hab p hp q hq
  cases hpa : cellVal dt es r a <;> rw [hpa] at hp
  · simp at hp
  · cases hqa : cellVal dt es r b <;> rw [hqa] at hq
    · simp at hq
    · simp at hp hq
      cases hp; cases hq; simpa using hab

lemma rows_buildCSR_getD (dt : Dtype) (nr nc : ℕ) (es : List (ℕ × ℕ × ℚ)) (r : ℕ) :
    (buildCSR dt nr nc es).rows.getD r [] = if r < nr then rowOf dt es nc r else [] := by
  unfold buildCSR
  by_cases h : r < nr
  · rw [if_pos h, List.getD_eq_getElem?_getD, List.getElem?_map, List.getElem?_range h]
    rfl
  · rw [if_neg h, List.getD_eq_getElem?_getD, List.getElem?_eq_none (by simpa using Nat.le_of_not_lt h)]
    rfl

lemma entry_buildCSR (dt : Dtype) (nr nc : ℕ) (es : List (ℕ × ℕ × ℚ)) (r c : ℕ) :
    (buildCSR dt nr nc es).entry r c
      = if r < nr ∧ c < nc then (cellVal dt es r c).getD 0 else 0 := by
  unfold CSR.entry
  rw [rows_buildCSR_getD]
  by_cases hr : r < nr
  · rw [if_pos hr, lookup_rowOf]
    by_cases hc : c < nc
    · rw [if_pos hc, if_pos ⟨hr, hc⟩]
    · rw [if_neg hc, if_neg (by tauto)]; rfl
  · rw [if_neg hr, if_neg (by tauto)]; rfl

lemma nRows_buildCSR (dt : Dtype) (nr nc : ℕ) (es : List (ℕ × ℕ × ℚ)) :
    (buildCSR dt nr nc es).nRows = nr := by
  simp [buildCSR, CSR.nRows]

lemma ncols_buildCSR (dt : Dtype) (nr nc : ℕ) (es : List (ℕ × ℕ × ℚ)) :
    (buildCSR dt nr nc es).ncols = nc := rfl

lemma dtype_buildCSR (dt : Dtype) (nr nc : ℕ) (es : List (ℕ × ℕ × ℚ)) :
    (buildCSR dt nr nc es).dtype = dt := rfl

lemma sumVals_append_comm (dt : Dtype) (l₁ l₂ : List ℚ) :
    sumVals dt (l₁ ++ l₂) = sumVals dt (l₂ ++ l₁) := by
  cases dt <;> simp [sumVals, List.any_append, List.sum_append, Bool.or_comm, add_comm]

/-! ### Symmetry of the modelled `directed2undirected` -/

lemma filter_swap_vals (es : List (ℕ × ℕ × ℚ)) (i j : ℕ) :
    (((es.map swapE).filter (fun e => e.1 == i && e.2.1 == j)).map (fun e => e.2.2))
      = ((es.filter (fun e => e.1 == j && e.2.1 == i)).map (fun e => e.2.2)) := by
  rw [List.filter_map, List.map_map]
  have hp : ((fun e : ℕ × ℕ × ℚ => e.1 == i && e.2.1 == j) ∘ swapE)
      = (fun e : ℕ × ℕ × ℚ => e.1 == j && e.2.1 == i) := by
    funext e; simp [swapE, Function.comp, Bool.and_comm]
  have hv : ((fun e : ℕ × ℕ × ℚ => e.2.2) ∘ swapE)
      = (fun e : ℕ × ℕ × ℚ => e.2.2) := by
    funext e; simp [swapE, Function.comp]
  rw [hp, hv]

lemma cellVal_symm (dt : Dtype) (es : List (ℕ × ℕ × ℚ)) (i j : ℕ) :
    cellVal dt (es ++ es.map swapE) i j = cellVal dt (es ++ es.map swapE) j i := by
  simp only [cellVal, List.filter_append, List.map_append, filter_swap_vals]
  have he : ∀ a b : List ℚ, (a ++ b).isEmpty = (b ++ a).isEmpty := by
    intro a b
    cases a <;> cases b <;> simp [List.isEmpty]
  rw [he, sumVals_append_comm]

lemma d2u_entry_symm (A : CSR) (h : A.nRows = A.ncols) (i j : ℕ) :
    (directed2undirected A).entry i j = (directed2undirected A).entry j i := by
  unfold directed2undirected
  rw [entry_buildCSR, entry_buildCSR, cellVal_symm]
  exact if_congr (by rw [h]; constructor <;> exact fun hh => ⟨hh.2, hh.1⟩) rfl rfl

/-! ### Decoding lemmas for well-formed edge lists -/

lemma ok_bind {α β : Type} (a : α) (f : α → Except PyErr β) :
    (Except.ok a >>= f) = f a := rfl

lemma error_bind {α β : Type} (e : PyErr) (f : α → Except PyErr β) :
    ((Except.error e : Except PyErr α) >>= f) = .error e := rfl

lemma all_map_fn {α β : Type} (f : α → β) (l : List α) (p : β → Bool) :
    (l.map f).all p = l.all (fun a => p (f a)) := by
  induction l with
  | nil => rfl
  | cons x t ih => simp [ih]

lemma all_congr_fn {α : Type} (l : List α) (f g : α → Bool)
    (h : ∀ a ∈ l, f a = g a) : l.all f = l.all g := by
  induction l with
  | nil => rfl
  | cons x t ih =>
    simp only [List.all_cons, h x (by simp), ih (fun a ha => h a (by simp [ha]))]

lemma length_mkEdge (e : ℤ × ℤ × Option PyNum) :
    (mkEdge e).length = if (e.2.2).isSome then 3 else 2 := by
  obtain ⟨a, b, w⟩ := e; cases w <;> simp [mkEdge]

lemma all_isInt_mkEdge (e : ℤ × ℤ × Option PyNum) :
    (mkEdge e).all PyNum.isInt = e.2.2.all PyNum.isInt := by
  obtain ⟨a, b, w⟩ := e; cases w <;> simp [mkEdge, PyNum.isInt]

lemma getD0_mkEdge (e : ℤ × ℤ × Option PyNum) :
    ((mkEdge e).map PyNum.toQ).getD 0 0 = (e.1 : ℚ) := by
  obtain ⟨a, b, w⟩ := e; cases w <;> simp [mkEdge, PyNum.toQ, List.getD]

lemma getD1_mkEdge (e : ℤ × ℤ × Option PyNum) :
    ((mkEdge e).map PyNum.toQ).getD 1 0 = (e.2.1 : ℚ) := by
  obtain ⟨a, b, w⟩ := e; cases w <;> simp [mkEdge, PyNum.toQ, List.getD]

lemma getD2_mkEdge (e : ℤ × ℤ × Option PyNum) (hw : (e.2.2).isSome = true) :
    ((mkEdge e).map PyNum.toQ).getD 2 0 = (decodeE e).2.2 := by
  obtain ⟨a, b, w⟩ := e
  cases w with
  | none => simp at hw
  | some v => simp [mkEdge, decodeE, List.getD]

lemma cast32_intCast (z : ℤ) (h0 : 0 ≤ z) (h1 : z ≤ 2 ^ 31 - 2) :
    cast32 ((z : ℚ)) = z := by
  unfold cast32 truncQ toInt32
  rw [Rat.num_intCast, Rat.den_intCast]
  have ht : z.tdiv ((1 : ℕ) : ℤ) = z := by
    rw [Nat.cast_one, Int.tdiv_one]
  rw [ht, Int.emod_eq_of_lt (by omega) (by omega)]
  omega

lemma npArray_mkEdge (l : List (ℤ × ℤ × Option PyNum)) (w : Bool) (hne : l ≠ [])
    (hw : ∀ e ∈ l, (e.2.2).isSome = w) :
    npArray (l.map mkEdge) = .ok ⟨npDtype l, if w then 3 else 2,
      l.map (fun e => (mkEdge e).map PyNum.toQ)⟩ := by
  obtain ⟨e₀, t, rfl⟩ : ∃ e₀ t, l = e₀ :: t := by
    cases l with
    | nil => exact absurd rfl hne
    | cons x xs => exact ⟨x, xs, rfl⟩
  have hk : ∀ e ∈ e₀ :: t, (mkEdge e).length = if w then 3 else 2 := by
    intro e he
    rw [length_mkEdge, hw e he]
  unfold npArray
  rw [if_pos]
  · have hdt : ((e₀ :: t).map mkEdge).all (fun r => r.all PyNum.isInt)
        = (e₀ :: t).all (fun e => e.2.2.all PyNum.isInt) := by
      rw [all_map_fn]
      exact all_congr_fn _ _ _ (fun e _ => all_isInt_mkEdge e)
    rw [List.map_map]
    have hh : (((e₀ :: t).map mkEdge).headD []).length = if w then 3 else 2 := by
      simp only [List.map_cons, List.headD_cons]
      exact hk e₀ (by simp)
    simp only [hdt, hh, npDtype]
    rfl
  · rw [List.all_eq_true]
    intro r hr
    rw [List.mem_map] at hr
    obtain ⟨e, he, rfl⟩ := hr
    simp only [List.map_cons, List.headD_cons, beq_iff_eq]
    rw [hk e he, hk e₀ (by simp)]

lemma map_congr_fn {α β : Type} (l : List α) (f g : α → β)
    (h : ∀ a ∈ l, f a = g a) : l.map f = l.map g := by
  induction l with
  | nil => rfl
  | cons x t ih =>
    simp only [List.map_cons, h x (by simp), ih (fun a ha => h a (by simp [ha]))]

lemma sliceCol_mk (dt : Dtype) (k : ℕ) (rs : List (List ℚ)) (j : ℕ) (h : j < k) :
    sliceCol ⟨dt, k, rs⟩ j = .ok (rs.map (fun r => r.getD j 0)) := by
  simp [sliceCol, h]

lemma csr_matrix_ok (dt : Dtype) (nr nc : ℤ) (row col : List ℤ) (data : List ℚ)
    (h1 : 0 ≤ nr) (h2 : 0 ≤ nc)
    (hl : row.length = col.length ∧ col.length = data.length)
    (hr : ∀ i ∈ row, 0 ≤ i ∧ i < nr) (hc : ∀ j ∈ col, 0 ≤ j ∧ j < nc) :
    csr_matrix dt nr nc row col data
      = .ok (buildCSR dt nr.toNat nc.toNat
          ((row.zip (col.zip data)).map (fun p => (p.1.toNat, p.2.1.toNat, p.2.2)))) := by
  unfold csr_matrix
  rw [if_neg (by omega), if_neg (not_not_intro hl), if_neg ?hany]
  case hany =>
    intro hor
    rcases hor with h | h
    · rw [List.any_eq_true] at h
      obtain ⟨i, hi, hd⟩ := h
      rcases of_decide_eq_true hd with h' | h'
      · exact absurd h' (by have := (hr i hi).1; omega)
      · exact absurd h' (by have := (hr i hi).2; omega)
    · rw [List.any_eq_true] at h
      obtain ⟨j, hj, hd⟩ := h
      rcases of_decide_eq_true hd with h' | h'
      · exact absurd h' (by have := (hc j hj).1; omega)
      · exact absurd h' (by have := (hc j hj).2; omega)

lemma zip3_map {α : Type} (l : List α) (f g : α → ℤ) (h : α → ℚ) :
    ((l.map f).zip ((l.map g).zip (l.map h))).map (fun p => (p.1.toNat, p.2.1.toNat, p.2.2))
      = l.map (fun a => ((f a).toNat, (g a).toNat, h a)) := by
  rw [List.zip_map', List.zip_map', List.map_map]
  rfl

lemma npMax_map_fst_nonneg (l : List (ℤ × ℤ × Option PyNum)) (hne : l ≠ [])
    (hb : ∀ e ∈ l, inRange32 e.1 ∧ inRange32 e.2.1) :
    0 ≤ npMax (l.map (fun e => e.1)) := by
  obtain ⟨e₀, t, rfl⟩ : ∃ e₀ t, l = e₀ :: t := by
    cases l with
    | nil => exact absurd rfl hne
    | cons x xs => exact ⟨x, xs, rfl⟩
  exact le_trans (hb e₀ (by simp)).1.1 (le_npMax _ _ (by simp))

lemma npMax_map_snd_nonneg (l : List (ℤ × ℤ × Option PyNum)) (hne : l ≠ [])
    (hb : ∀ e ∈ l, inRange32 e.1 ∧ inRange32 e.2.1) :
    0 ≤ npMax (l.map (fun e => e.2.1)) := by
  obtain ⟨e₀, t, rfl⟩ : ∃ e₀ t, l = e₀ :: t := by
    cases l with
    | nil => exact absurd rfl hne
    | cons x xs => exact ⟨x, xs, rfl⟩
  exact le_trans (hb e₀ (by simp)).2.1 (le_npMax _ _ (by simp))

lemma row_decoded (l : List (ℤ × ℤ × Option PyNum))
    (hb : ∀ e ∈ l, inRange32 e.1 ∧ inRange32 e.2.1) :
    ((l.map (fun e => (mkEdge e).map PyNum.toQ)).map (fun r => r.getD 0 0)).map cast32
      = l.map (fun e => e.1) := by
  rw [List.map_map, List.map_map]
  refine map_congr_fn _ _ _ (fun e he => ?_)
  simp only [Function.comp]
  rw [getD0_mkEdge e]
  exact cast32_intCast e.1 (hb e he).1.1 (hb e he).1.2

lemma col_decoded (l : List (ℤ × ℤ × Option PyNum))
    (hb : ∀ e ∈ l, inRange32 e.1 ∧ inRange32 e.2.1) :
    ((l.map (fun e => (mkEdge e).map PyNum.toQ)).map (fun r => r.getD 1 0)).map cast32
      = l.map (fun e => e.2.1) := by
  rw [List.map_map, List.map_map]
  refine map_congr_fn _ _ _ (fun e he => ?_)
  simp only [Function.comp]
  rw [getD1_mkEdge e]
  exact cast32_intCast e.2.1 (hb e he).2.1 (hb e he).2.2

lemma data_decoded (l : List (ℤ × ℤ × Option PyNum))
    (hw : ∀ e ∈ l, (e.2.2).isSome = true) :
    (l.map (fun e => (mkEdge e).map PyNum.toQ)).map (fun r => r.getD 2 0)
      = l.map (fun e => (decodeE e).2.2) := by
  rw [List.map_map]
  exact map_congr_fn _ _ _ (fun e he => getD2_mkEdge e (hw e he))

lemma bounds_fst (l : List (ℤ × ℤ × Option PyNum))
    (hb : ∀ e ∈ l, inRange32 e.1 ∧ inRange32 e.2.1) :
    ∀ i ∈ l.map (fun e => e.1), 0 ≤ i ∧ i < npMax (l.map (fun e => e.1)) + 1 := by
  intro i hi
  obtain ⟨e, he, rfl⟩ := List.mem_map.mp hi
  refine ⟨(hb e he).1.1, ?_⟩
  have := le_npMax (l.map (fun e => e.1)) e.1 (List.mem_map.mpr ⟨e, he, rfl⟩)
  omega

lemma bounds_snd (l : List (ℤ × ℤ × Option PyNum))
    (hb : ∀ e ∈ l, inRange32 e.1 ∧ inRange32 e.2.1) :
    ∀ j ∈ l.map (fun e => e.2.1), 0 ≤ j ∧ j < npMax (l.map (fun e => e.2.1)) + 1 := by
  intro j hj
  obtain ⟨e, he, rfl⟩ := List.mem_map.mp hj
  refine ⟨(hb e he).2.1, ?_⟩
  have := le_npMax (l.map (fun e => e.2.1)) e.2.1 (List.mem_map.mpr ⟨e, he, rfl⟩)
  omega


lemma adjacency_ok (l : List (ℤ × ℤ × Option PyNum)) (w : Bool) (hne : l ≠ [])
    (hw : ∀ e ∈ l, (e.2.2).isSome = w)
    (hb : ∀ e ∈ l, inRange32 e.1 ∧ inRange32 e.2.1) :
    edgelist2adjacency (l.map mkEdge) false
      = .ok (buildCSR (edgeDtype l w) (adjDim l).toNat (adjDim l).toNat
          (l.map decodeE)) := by
  have hr0 := npMax_map_fst_nonneg l hne hb
  have hc0 := npMax_map_snd_nonneg l hne hb
  have hdim : 0 ≤ adjDim l := by
    unfold adjDim
    have := le_trans hr0 (le_max_left (npMax (l.map (fun e => e.1))) (npMax (l.map (fun e => e.2.1))))
    omega
  have hbr : ∀ i ∈ l.map (fun e => e.1), 0 ≤ i ∧ i < adjDim l := by
    intro i hi
    have h := bounds_fst l hb i hi
    have h2 := le_max_left (npMax (l.map (fun e => e.1))) (npMax (l.map (fun e => e.2.1)))
    unfold adjDim
    omega
  have hbc : ∀ j ∈ l.map (fun e => e.2.1), 0 ≤ j ∧ j < adjDim l := by
    intro j hj
    have h := bounds_snd l hb j hj
    have h2 := le_max_right (npMax (l.map (fun e => e.1))) (npMax (l.map (fun e => e.2.1)))
    unfold adjDim
    omega
  cases w with
  | false =>
    have hnone : ∀ e ∈ l, e.2.2 = none := by
      intro e he
      have h := hw e he
      cases hcc : e.2.2 with
      | none => rfl
      | some v => rw [hcc] at h; simp at h
    have hnp := npArray_mkEdge l false hne hw
    norm_num at hnp
    have hs0 := sliceCol_mk (npDtype l) 2 (l.map (fun e => (mkEdge e).map PyNum.toQ)) 0 (by norm_num)
    have hs1 := sliceCol_mk (npDtype l) 2 (l.map (fun e => (mkEdge e).map PyNum.toQ)) 1 (by norm_num)
    unfold edgelist2adjacency
    simp only [hnp, hs0, hs1]
    rw [row_decoded l hb, col_decoded l hb]
    norm_num
    have hfold : max (npMax (l.map fun e => e.1)) (npMax (l.map fun e => e.2.1)) + 1
        = adjDim l := rfl
    rw [hfold]
    have hcsr := csr_matrix_ok Dtype.bool (adjDim l) (adjDim l)
      (l.map fun e => e.1) (l.map fun e => e.2.1)
      (l.map ((fun _ => (1 : ℚ)) ∘ fun e => e.1)) hdim hdim
      (by simp) hbr hbc
    rw [hcsr, zip3_map]
    have hmap : l.map (fun a => (a.1.toNat, a.2.1.toNat,
        (((fun _ => (1 : ℚ)) ∘ (fun e : ℤ × ℤ × Option PyNum => e.1)) a)))
        = l.map decodeE := by
      refine map_congr_fn _ _ _ (fun e he => ?_)
      unfold decodeE
      rw [hnone e he]
      rfl
    rw [hmap]
    rfl
  | true =>
    have hsome : ∀ e ∈ l, (e.2.2).isSome = true := hw
    have hnp := npArray_mkEdge l true hne hw
    norm_num at hnp
    have hs0 := sliceCol_mk (npDtype l) 3 (l.map (fun e => (mkEdge e).map PyNum.toQ)) 0 (by norm_num)
    have hs1 := sliceCol_mk (npDtype l) 3 (l.map (fun e => (mkEdge e).map PyNum.toQ)) 1 (by norm_num)
    unfold edgelist2adjacency
    simp only [hnp, hs0, hs1]
    rw [row_decoded l hb, col_decoded l hb, data_decoded l hsome]
    norm_num
    have hfold : max (npMax (l.map fun e => e.1)) (npMax (l.map fun e => e.2.1)) + 1
        = adjDim l := rfl
    rw [hfold]
    have hcsr := csr_matrix_ok (npDtype l) (adjDim l) (adjDim l)
      (l.map fun e => e.1) (l.map fun e => e.2.1)
      (l.map (fun e => (decodeE e).2.2)) hdim hdim
      (by simp) hbr hbc
    rw [hcsr, zip3_map]
    have hmap : l.map (fun a => (a.1.toNat, a.2.1.toNat, (decodeE a).2.2))
        = l.map decodeE := by
      refine map_congr_fn _ _ _ (fun e he => rfl)
    rw [hmap]
    rfl

/-- Normal form of `edgelist2biadjacency` on a nonempty uniform-arity edge
list with in-range integer indices: the build succeeds with independently
computed dimensions `rowDim` and `colDim`. -/
lemma biadjacency_ok (l : List (ℤ × ℤ × Option PyNum)) (w : Bool) (hne : l ≠ [])
    (hw : ∀ e ∈ l, (e.2.2).isSome = w)
    (hb : ∀ e ∈ l, inRange32 e.1 ∧ inRange32 e.2.1) :
    edgelist2biadjacency (l.map mkEdge)
      = .ok (buildCSR (edgeDtype l w) (rowDim l).toNat (colDim l).toNat
          (l.map decodeE)) := by
  have hr0 := npMax_map_fst_nonneg l hne hb
  have hc0 := npMax_map_snd_nonneg l hne hb
  have hdr : 0 ≤ rowDim l := by unfold rowDim; omega
  have hdc : 0 ≤ colDim l := by unfold colDim; omega
  have hbr : ∀ i ∈ l.map (fun e => e.1), 0 ≤ i ∧ i < rowDim l := by
    intro i hi
    have h := bounds_fst l hb i hi
    unfold rowDim
    omega
  have hbc : ∀ j ∈ l.map (fun e => e.2.1), 0 ≤ j ∧ j < colDim l := by
    intro j hj
    have h := bounds_snd l hb j hj
    unfold colDim
    omega
  cases w with
  | false =>
    have hnone : ∀ e ∈ l, e.2.2 = none := by
      intro e he
      have h := hw e he
      cases hcc : e.2.2 with
      | none => rfl
      | some v => rw [hcc] at h; simp at h
    have hnp := npArray_mkEdge l false hne hw
    norm_num at hnp
    have hs0 := sliceCol_mk (npDtype l) 2 (l.map (fun e => (mkEdge e).map PyNum.toQ)) 0 (by norm_num)
    have hs1 := sliceCol_mk (npDtype l) 2 (l.map (fun e => (mkEdge e).map PyNum.toQ)) 1 (by norm_num)
    unfold edgelist2biadjacency
    simp only [hnp, hs0, hs1]
    rw [row_decoded l hb, col_decoded l hb]
    norm_num
    have hfr : npMax (l.map fun e => e.1) + 1 = rowDim l := rfl
    have hfc : npMax (l.map fun e => e.2.1) + 1 = colDim l := rfl
    rw [hfr, hfc]
    have hcsr := csr_matrix_ok Dtype.bool (rowDim l) (colDim l)
      (l.map fun e => e.1) (l.map fun e => e.2.1)
      (l.map ((fun _ => (1 : ℚ)) ∘ fun e => e.1)) hdr hdc
      (by simp) hbr hbc
    rw [hcsr, zip3_map]
    have hmap : l.map (fun a => (a.1.toNat, a.2.1.toNat,
        (((fun _ => (1 : ℚ)) ∘ (fun e : ℤ × ℤ × Option PyNum => e.1)) a)))
        = l.map decodeE := by
      refine map_congr_fn _ _ _ (fun e he => ?_)
      unfold decodeE
      rw [hnone e he]
      rfl
    rw [hmap]
    rfl
  | true =>
    have hsome : ∀ e ∈ l, (e.2.2).isSome = true := hw
    have hnp := npArray_mkEdge l true hne hw
    norm_num at hnp
    have hs0 := sliceCol_mk (npDtype l) 3 (l.map (fun e => (mkEdge e).map PyNum.toQ)) 0 (by norm_num)
    have hs1 := sliceCol_mk (npDtype l) 3 (l.map (fun e => (mkEdge e).map PyNum.toQ)) 1 (by norm_num)
    unfold edgelist2biadjacency
    simp only [hnp, hs0, hs1]
    rw [row_decoded l hb, col_decoded l hb, data_decoded l hsome]
    norm_num
    have hfr : npMax (l.map fun e => e.1) + 1 = rowDim l := rfl
    have hfc : npMax (l.map fun e => e.2.1) + 1 = colDim l := rfl
    rw [hfr, hfc]
    have hcsr := csr_matrix_ok (npDtype l) (rowDim l) (colDim l)
      (l.map fun e => e.1) (l.map fun e => e.2.1)
      (l.map (fun e => (decodeE e).2.2)) hdr hdc
      (by simp) hbr hbc
    rw [hcsr, zip3_map]
    have hmap : l.map (fun a => (a.1.toNat, a.2.1.toNat, (decodeE a).2.2))
        = l.map decodeE := by
      refine map_congr_fn _ _ _ (fun e he => rfl)
    rw [hmap]
    rfl

/-! ### Case analysis of the pipelines on arbitrary input -/

lemma npArray_error (l : List (List PyNum)) (e : PyErr)
    (h : npArray l = .error e) : e = .ValueError := by
  unfold npArray at h
  split at h
  · exact absurd h (by simp)
  · injection h with h2
    exact h2.symm

lemma sliceCol_error (a : NpArr) (j : ℕ) (e : PyErr)
    (h : sliceCol a j = .error e) : e = .IndexError := by
  unfold sliceCol at h
  split at h
  · exact absurd h (by simp)
  · injection h with h2
    exact h2.symm

lemma csr_matrix_error (dt : Dtype) (nr nc : ℤ) (row col : List ℤ) (data : List ℚ)
    (e : PyErr) (h : csr_matrix dt nr nc row col data = .error e) : e = .ValueError := by
  unfold csr_matrix at h
  split at h
  · injection h with h2
    exact h2.symm
  · split at h
    · injection h with h2
      exact h2.symm
    · split at h
      · injection h with h2
        exact h2.symm
      · exact absurd h (by simp)

lemma csr_matrix_ok_shape (dt : Dtype) (nr nc : ℤ) (row col : List ℤ) (data : List ℚ)
    (B : CSR) (h : csr_matrix dt nr nc row col data = .ok B) :
    B = buildCSR dt nr.toNat nc.toNat
      ((row.zip (col.zip data)).map (fun p => (p.1.toNat, p.2.1.toNat, p.2.2))) := by
  unfold csr_matrix at h
  split at h
  · exact absurd h (by simp)
  · split at h
    · exact absurd h (by simp)
    · split at h
      · exact absurd h (by simp)
      · exact ((Except.ok.injEq _ _).mp h).symm


/-- Every outcome of `edgelist2adjacency`: an `ok` carrying a canonical
CSR build, an IndexError, or a ValueError; none of the spec's typed
errors is ever produced. -/
lemma adjacency_cases (el : List (List PyNum)) (u : Bool) :
    (∃ dt nr nc es, edgelist2adjacency el u = .ok (buildCSR dt nr nc es))
    ∨ edgelist2adjacency el u = .error .IndexError
    ∨ edgelist2adjacency el u = .error .ValueError := by
  unfold edgelist2adjacency
  split
  · rename_i e heq
    rw [npArray_error _ _ heq]
    right; right; rfl
  · rename_i edges heq
    split
    · rename_i e heq1
      rw [sliceCol_error _ _ _ heq1]
      right; left; rfl
    · rename_i e heq1 heq2
      rw [sliceCol_error _ _ _ heq2]
      right; left; rfl
    · rename_i col0 col1 heq1 heq2
      split
      · rename_i e heq3
        rw [csr_matrix_error _ _ _ _ _ _ _ heq3]
        right; right; rfl
      · rename_i adjacency heq3
        left
        have hB := csr_matrix_ok_shape _ _ _ _ _ _ _ heq3
        subst hB
        cases u with
        | false => exact ⟨_, _, _, _, rfl⟩
        | true => exact ⟨_, _, _, _, rfl⟩

lemma csr_matrix_cases (dt : Dtype) (nr nc : ℤ) (row col : List ℤ) (data : List ℚ) :
    (∃ d n m es, csr_matrix dt nr nc row col data = .ok (buildCSR d n m es))
    ∨ csr_matrix dt nr nc row col data = .error .IndexError
    ∨ csr_matrix dt nr nc row col data = .error .ValueError := by
  unfold csr_matrix
  split
  · right; right; rfl
  · split
    · right; right; rfl
    · split
      · right; right; rfl
      · left; exact ⟨_, _, _, _, rfl⟩

/-- Every outcome of `edgelist2biadjacency`: an `ok` carrying a canonical
CSR build, an IndexError, or a ValueError. -/
lemma biadjacency_cases (el : List (List PyNum)) :
    (∃ dt nr nc es, edgelist2biadjacency el = .ok (buildCSR dt nr nc es))
    ∨ edgelist2biadjacency el = .error .IndexError
    ∨ edgelist2biadjacency el = .error .ValueError := by
  unfold edgelist2biadjacency
  split
  · rename_i e heq
    rw [npArray_error _ _ heq]
    right; right; rfl
  · rename_i edges heq
    split
    · rename_i e heq1
      rw [sliceCol_error _ _ _ heq1]
      right; left; rfl
    · rename_i e heq1 heq2
      rw [sliceCol_error _ _ _ heq2]
      right; left; rfl
    · exact csr_matrix_cases _ _ _ _ _ _

/-- The `undirected=True` path is exactly the `undirected=False` result
post-composed with `directed2undirected`. -/
lemma adjacency_undirected_eq (el : List (List PyNum)) :
    edgelist2adjacency el true
      = (edgelist2adjacency el false).map directed2undirected := by
  unfold edgelist2adjacency
  split
  · rfl
  · split
    · rfl
    · rfl
    · split
      · rfl
      · rfl

lemma buildCSR_rows_sorted (dt : Dtype) (nr nc : ℕ) (es : List (ℕ × ℕ × ℚ)) :
    ∀ row ∈ (buildCSR dt nr nc es).rows, row.Pairwise (fun p q => p.1 < q.1) := by
  intro row hrow
  unfold buildCSR at hrow
  simp only [List.mem_map] at hrow
  obtain ⟨r, _, rfl⟩ := hrow
  exact rowOf_pairwise dt es nc r

lemma indptr_succ (A : CSR) (r : ℕ) (h : r < A.nRows) :
    A.indptr (r + 1) = A.indptr r + (A.rows.getD r []).length := by
  unfold CSR.indptr
  rw [List.take_succ, List.map_append, List.sum_append]
  have hr2 : r < A.rows.length := h
  have hx : A.rows[r]? = some (A.rows.getD r []) := by
    rw [List.getD_eq_getElem?_getD, List.getElem?_eq_getElem hr2]
    rfl
  rw [hx]
  simp

/-- In any of our CSR matrices, a row is empty exactly when the
consecutive row-pointer values agree. -/
lemma indptr_empty_iff (A : CSR) (r : ℕ) (h : r < A.nRows) :
    A.rows.getD r [] = [] ↔ A.indptr (r + 1) = A.indptr r := by
  rw [indptr_succ A r h]
  constructor
  · intro he; rw [he]; simp
  · intro he
    have h0 : (A.rows.getD r []).length = 0 := by omega
    exact List.length_eq_zero.mp h0

/-- Number of entries stored at coordinate `(r, c)` (0 or 1 in canonical
form). -/
def storedAt (A : CSR) (r c : ℕ) : ℕ :=
  ((A.rows.getD r []).filter (fun p => p.1 == c)).length

lemma filter_fst_len (row : List (ℕ × ℚ)) (hp : row.Pairwise (fun p q => p.1 < q.1))
    (c : ℕ) : (row.filter (fun p => p.1 == c)).length ≤ 1 := by
  induction row with
  | nil => simp
  | cons a t ih =>
    rw [List.pairwise_cons] at hp
    by_cases hc : (a.1 == c) = true
    · have h0 : (t.filter (fun q => q.1 == c)).length = 0 := by
        rw [List.length_eq_zero, List.filter_eq_nil_iff]
        intro q hq hqc
        have h1 := hp.1 q hq
        have h2 : a.1 = c := by simpa using hc
        have h3 : q.1 = c := by simpa using hqc
        omega
      simp only [List.filter_cons, hc, if_true, List.length_cons, h0]
      omega
    · simp only [List.filter_cons, hc, if_false]
      exact ih hp.2

lemma mem_rowOf (dt : Dtype) (es : List (ℕ × ℕ × ℚ)) (nc r c : ℕ) (v : ℚ) :
    (c, v) ∈ rowOf dt es nc r ↔ c < nc ∧ cellVal dt es r c = some v := by
  unfold rowOf
  rw [List.mem_filterMap]
  constructor
  · rintro ⟨x, hx, hxe⟩
    cases hcv : cellVal dt es r x with
    | none =>
      rw [hcv] at hxe
      exact absurd hxe (by simp)
    | some w =>
      rw [hcv] at hxe
      have h1 : x = c ∧ w = v := by simpa using hxe
      obtain ⟨rfl, rfl⟩ := h1
      exact ⟨List.mem_range.mp hx, hcv⟩
  · rintro ⟨hc, hcv⟩
    refine ⟨c, List.mem_range.mpr hc, ?_⟩
    rw [hcv]
    rfl

lemma storedAt_buildCSR (dt : Dtype) (nr nc : ℕ) (es : List (ℕ × ℕ × ℚ)) (r c : ℕ)
    (hr : r < nr) (hc : c < nc) :
    storedAt (buildCSR dt nr nc es) r c
      = if ((es.filter (fun e => e.1 == r && e.2.1 == c)).map (fun e => e.2.2)).isEmpty
        then 0 else 1 := by
  unfold storedAt
  rw [rows_buildCSR_getD, if_pos hr]
  by_cases hm : ((es.filter (fun e => e.1 == r && e.2.1 == c)).map (fun e => e.2.2)).isEmpty
  · rw [if_pos hm]
    rw [List.length_eq_zero, List.filter_eq_nil_iff]
    rintro ⟨c2, v⟩ hmem hcc
    have hc2 : c2 = c := by simpa using hcc
    subst hc2
    have h4 := ((mem_rowOf dt es nc r c2 v).mp hmem).2
    unfold cellVal at h4
    rw [if_pos hm] at h4
    exact absurd h4 (by simp)
  · rw [if_neg hm]
    have hle := filter_fst_len (rowOf dt es nc r) (rowOf_pairwise dt es nc r) c
    have hmem : (c, sumVals dt ((es.filter (fun e => e.1 == r && e.2.1 == c)).map (fun e => e.2.2)))
        ∈ rowOf dt es nc r := by
      rw [mem_rowOf]
      refine ⟨hc, ?_⟩
      unfold cellVal
      rw [if_neg hm]
    have hmemf : (c, sumVals dt ((es.filter (fun e => e.1 == r && e.2.1 == c)).map (fun e => e.2.2)))
        ∈ (rowOf dt es nc r).filter (fun q => q.1 == c) :=
      List.mem_filter.mpr ⟨hmem, by exact beq_self_eq_true c⟩
    have hpos := List.length_pos.mpr (List.ne_nil_of_mem hmemf)
    omega

/-! ### Helpers for the claim statements -/

lemma sumVals_nonbool (dt : Dtype) (h : dt ≠ .bool) (xs : List ℚ) :
    sumVals dt xs = xs.sum := by
  cases dt with
  | bool => exact absurd rfl h
  | int64 => rfl
  | float64 => rfl

lemma npDtype_ne_bool (l : List (ℤ × ℤ × Option PyNum)) : npDtype l ≠ .bool := by
  unfold npDtype
  split <;> simp

lemma edgeDtype_true (l : List (ℤ × ℤ × Option PyNum)) :
    edgeDtype l true = npDtype l := rfl

lemma sumVals_bool_ones (xs : List ℚ) (hne : xs ≠ []) (h1 : ∀ v ∈ xs, v = 1) :
    sumVals .bool xs = 1 := by
  cases xs with
  | nil => exact absurd rfl hne
  | cons x t =>
    have hx : x = 1 := h1 x (by simp)
    subst hx
    simp [sumVals]

lemma foldl_max_cons (l : List ℤ) : ∀ a b : ℤ,
    l.foldl max (max a b) = max a (l.foldl max b) := by
  induction l with
  | nil => intro a b; rfl
  | cons z zs ih =>
    intro a b
    show zs.foldl max (max (max a b) z) = max a ((z :: zs).foldl max b)
    rw [max_assoc, ih a (max b z)]
    rfl

lemma npMax_append (a b : List ℤ) (ha : a ≠ []) (hb : b ≠ []) :
    npMax (a ++ b) = max (npMax a) (npMax b) := by
  cases a with
  | nil => exact absurd rfl ha
  | cons x xs =>
    cases b with
    | nil => exact absurd rfl hb
    | cons y ys =>
      show (xs ++ y :: ys).foldl max x = max (xs.foldl max x) (ys.foldl max y)
      rw [List.foldl_append]
      show ys.foldl max (max (xs.foldl max x) y) = _
      rw [foldl_max_cons ys (xs.foldl max x) y]

/-- The weights of the input records that decode to coordinate `(r, c)`
(1 for unweighted records). -/
def wtsAt (l : List (ℤ × ℤ × Option PyNum)) (r c : ℕ) : List ℚ :=
  ((l.map decodeE).filter (fun e => e.1 == r && e.2.1 == c)).map (fun e => e.2.2)

lemma wtsAt_bounds (l : List (ℤ × ℤ × Option PyNum))
    (hb : ∀ e ∈ l, inRange32 e.1 ∧ inRange32 e.2.1) (r c : ℕ)
    (hm : wtsAt l r c ≠ []) :
    r < (adjDim l).toNat ∧ c < (adjDim l).toNat
      ∧ r < (rowDim l).toNat ∧ c < (colDim l).toNat := by
  have hfil : (l.map decodeE).filter (fun e => e.1 == r && e.2.1 == c) ≠ [] := by
    intro hnil
    unfold wtsAt at hm
    rw [hnil] at hm
    exact hm rfl
  obtain ⟨d, hd⟩ := List.exists_mem_of_ne_nil _ hfil
  have hd2 := List.mem_filter.mp hd
  obtain ⟨e, he, rfl⟩ := List.mem_map.mp hd2.1
  have hcoord : (decodeE e).1 = r ∧ (decodeE e).2.1 = c := by
    have := hd2.2
    simp only [Bool.and_eq_true, beq_iff_eq] at this
    exact this
  have hre : e.1.toNat = r := hcoord.1
  have hce : e.2.1.toNat = c := hcoord.2
  have h1 := (bounds_fst l hb e.1 (List.mem_map.mpr ⟨e, he, rfl⟩)).2
  have h2 := (bounds_snd l hb e.2.1 (List.mem_map.mpr ⟨e, he, rfl⟩)).2
  have h3 := (hb e he).1.1
  have h4 := (hb e he).2.1
  have h5 := le_max_left (npMax (l.map (fun e => e.1))) (npMax (l.map (fun e => e.2.1)))
  have h6 := le_max_right (npMax (l.map (fun e => e.1))) (npMax (l.map (fun e => e.2.1)))
  unfold adjDim rowDim colDim
  omega

lemma entry_at_coord (dt : Dtype) (nr nc : ℕ) (l : List (ℤ × ℤ × Option PyNum))
    (r c : ℕ) (hr : r < nr) (hc : c < nc) (hm : wtsAt l r c ≠ []) :
    storedAt (buildCSR dt nr nc (l.map decodeE)) r c = 1
      ∧ (buildCSR dt nr nc (l.map decodeE)).entry r c = sumVals dt (wtsAt l r c) := by
  have hie : ¬ (wtsAt l r c).isEmpty = true := by
    intro hx
    exact hm (List.isEmpty_iff.mp hx)
  unfold wtsAt at hie
  constructor
  · rw [storedAt_buildCSR dt nr nc (l.map decodeE) r c hr hc]
    exact if_neg hie
  · rw [entry_buildCSR, if_pos ⟨hr, hc⟩]
    simp only [cellVal]
    rw [if_neg hie]
    rfl

instance inRange32.dec (z : ℤ) : Decidable (inRange32 z) :=
  inferInstanceAs (Decidable (0 ≤ z ∧ z ≤ 2 ^ 31 - 2))

instance {ε α : Type} [DecidableEq ε] [DecidableEq α] : DecidableEq (Except ε α)
  | .error e, .error f =>
    if h : e = f then .isTrue (congrArg Except.error h)
    else .isFalse (fun hh => h (Except.error.inj hh))
  | .ok x, .ok y =>
    if h : x = y then .isTrue (congrArg Except.ok h)
    else .isFalse (fun hh => h (Except.ok.inj hh))
  | .error _, .ok _ => .isFalse (fun hh => Except.noConfusion hh)
  | .ok _, .error _ => .isFalse (fun hh => Except.noConfusion hh)

/-! ### The claims -/

/-- C1: for every edge list containing records with the same (row, col)
coordinate, both `edgelist2adjacency` and `edgelist2biadjacency` store a
single entry at that coordinate whose value is the sum of the duplicate
records' values; in particular the edges (0,1,2.0) and (0,1,3.0) produce
one stored entry at (0,1) equal to 5.0. -/
theorem C1_duplicate_summation :
    (∀ l : List (ℤ × ℤ × Option PyNum), l ≠ [] →
      (∀ e ∈ l, (e.2.2).isSome = true) →
      (∀ e ∈ l, inRange32 e.1 ∧ inRange32 e.2.1) →
      ∃ A, edgelist2adjacency (l.map mkEdge) false = .ok A
        ∧ ∀ r c : ℕ, wtsAt l r c ≠ [] →
            storedAt A r c = 1 ∧ A.entry r c = (wtsAt l r c).sum)
    ∧ (∀ l : List (ℤ × ℤ × Option PyNum), l ≠ [] →
      (∀ e ∈ l, (e.2.2).isSome = true) →
      (∀ e ∈ l, inRange32 e.1 ∧ inRange32 e.2.1) →
      ∃ B, edgelist2biadjacency (l.map mkEdge) = .ok B
        ∧ ∀ r c : ℕ, wtsAt l r c ≠ [] →
            storedAt B r c = 1 ∧ B.entry r c = (wtsAt l r c).sum)
    ∧ (∃ A, edgelist2adjacency
          ([((0 : ℤ), (1 : ℤ), some (PyNum.float 2)),
            ((0 : ℤ), (1 : ℤ), some (PyNum.float 3))].map mkEdge) false = .ok A
        ∧ A.nnz = 1 ∧ storedAt A 0 1 = 1 ∧ A.entry 0 1 = 5)
    ∧ (∃ B, edgelist2biadjacency
          ([((0 : ℤ), (1 : ℤ), some (PyNum.float 2)),
            ((0 : ℤ), (1 : ℤ), some (PyNum.float 3))].map mkEdge) = .ok B
        ∧ B.nnz = 1 ∧ storedAt B 0 1 = 1 ∧ B.entry 0 1 = 5) := by
  refine ⟨?g1, ?g2, ?g3, ?g4⟩
  case g3 =>
    refine ⟨_, adjacency_ok
      [((0 : ℤ), (1 : ℤ), some (PyNum.float 2)), ((0 : ℤ), (1 : ℤ), some (PyNum.float 3))]
      true (by decide) (by decide) (by decide), by decide, by decide, ?_⟩
    have h := entry_at_coord
      (edgeDtype [((0 : ℤ), (1 : ℤ), some (PyNum.float 2)),
        ((0 : ℤ), (1 : ℤ), some (PyNum.float 3))] true)
      ((adjDim [((0 : ℤ), (1 : ℤ), some (PyNum.float 2)),
        ((0 : ℤ), (1 : ℤ), some (PyNum.float 3))]).toNat)
      ((adjDim [((0 : ℤ), (1 : ℤ), some (PyNum.float 2)),
        ((0 : ℤ), (1 : ℤ), some (PyNum.float 3))]).toNat)
      [((0 : ℤ), (1 : ℤ), some (PyNum.float 2)), ((0 : ℤ), (1 : ℤ), some (PyNum.float 3))]
      0 1 (by decide) (by decide) (by decide)
    rw [h.2,
      (by decide : wtsAt [((0 : ℤ), (1 : ℤ), some (PyNum.float 2)),
        ((0 : ℤ), (1 : ℤ), some (PyNum.float 3))] 0 1 = [2, 3]),
      edgeDtype_true, sumVals_nonbool _ (npDtype_ne_bool _) _]
    norm_num [List.sum_cons, List.sum_nil]
  case g4 =>
    refine ⟨_, biadjacency_ok
      [((0 : ℤ), (1 : ℤ), some (PyNum.float 2)), ((0 : ℤ), (1 : ℤ), some (PyNum.float 3))]
      true (by decide) (by decide) (by decide), by decide, by decide, ?_⟩
    have h := entry_at_coord
      (edgeDtype [((0 : ℤ), (1 : ℤ), some (PyNum.float 2)),
        ((0 : ℤ), (1 : ℤ), some (PyNum.float 3))] true)
      ((rowDim [((0 : ℤ), (1 : ℤ), some (PyNum.float 2)),
        ((0 : ℤ), (1 : ℤ), some (PyNum.float 3))]).toNat)
      ((colDim [((0 : ℤ), (1 : ℤ), some (PyNum.float 2)),
        ((0 : ℤ), (1 : ℤ), some (PyNum.float 3))]).toNat)
      [((0 : ℤ), (1 : ℤ), some (PyNum.float 2)), ((0 : ℤ), (1 : ℤ), some (PyNum.float 3))]
      0 1 (by decide) (by decide) (by decide)
    rw [h.2,
      (by decide : wtsAt [((0 : ℤ), (1 : ℤ), some (PyNum.float 2)),
        ((0 : ℤ), (1 : ℤ), some (PyNum.float 3))] 0 1 = [2, 3]),
      edgeDtype_true, sumVals_nonbool _ (npDtype_ne_bool _) _]
    norm_num [List.sum_cons, List.sum_nil]
  case g1 =>
    intro l hne hw hb
    refine ⟨_, adjacency_ok l true hne hw hb, ?_⟩
    intro r c hm
    have hbd := wtsAt_bounds l hb r c hm
    have h := entry_at_coord (edgeDtype l true) (adjDim l).toNat (adjDim l).toNat
      l r c hbd.1 hbd.2.1 hm
    refine ⟨h.1, ?_⟩
    rw [h.2]
    exact sumVals_nonbool _ (npDtype_ne_bool l) _
  case g2 =>
    intro l hne hw hb
    refine ⟨_, biadjacency_ok l true hne hw hb, ?_⟩
    intro r c hm
    have hbd := wtsAt_bounds l hb r c hm
    have h := entry_at_coord (edgeDtype l true) (rowDim l).toNat (colDim l).toNat
      l r c hbd.2.2.1 hbd.2.2.2 hm
    refine ⟨h.1, ?_⟩
    rw [h.2]
    exact sumVals_nonbool _ (npDtype_ne_bool l) _

/-- Witness for C1 at the spec's concrete duplicate pair. -/
theorem C1_witness :
    ∃ A, edgelist2adjacency
        ([((0 : ℤ), (1 : ℤ), some (PyNum.float 2)),
          ((0 : ℤ), (1 : ℤ), some (PyNum.float 3))].map mkEdge) false = .ok A
      ∧ ∀ r c : ℕ,
          wtsAt [((0 : ℤ), (1 : ℤ), some (PyNum.float 2)),
            ((0 : ℤ), (1 : ℤ), some (PyNum.float 3))] r c ≠ [] →
          storedAt A r c = 1
            ∧ A.entry r c
              = (wtsAt [((0 : ℤ), (1 : ℤ), some (PyNum.float 2)),
                  ((0 : ℤ), (1 : ℤ), some (PyNum.float 3))] r c).sum :=
  C1_duplicate_summation.1 _ (by decide) (by decide) (by decide)

/-- C2: on every nonempty uniform-arity edge list with in-range indices,
`edgelist2adjacency` returns a square matrix whose two dimensions both
equal one plus the maximum index over the row and column positions. -/
theorem C2_adjacency_shape :
    ∀ (l : List (ℤ × ℤ × Option PyNum)) (w : Bool), l ≠ [] →
      (∀ e ∈ l, (e.2.2).isSome = w) →
      (∀ e ∈ l, inRange32 e.1 ∧ inRange32 e.2.1) →
      ∃ A, edgelist2adjacency (l.map mkEdge) false = .ok A
        ∧ A.nRows = A.ncols
        ∧ (A.nRows : ℤ)
          = npMax (l.map (fun e => e.1) ++ l.map (fun e => e.2.1)) + 1 := by
  intro l w hne hw hb
  refine ⟨_, adjacency_ok l w hne hw hb, ?_, ?_⟩
  · rw [nRows_buildCSR, ncols_buildCSR]
  · rw [nRows_buildCSR]
    have h1 := npMax_map_fst_nonneg l hne hb
    have h5 := le_max_left (npMax (l.map (fun e => e.1))) (npMax (l.map (fun e => e.2.1)))
    rw [Int.toNat_of_nonneg (by unfold adjDim; omega)]
    rw [npMax_append _ _ (fun h => hne (by simpa using h)) (fun h => hne (by simpa using h))]
    rfl

/-- Witness for C2 at the triangle example. -/
theorem C2_witness :
    ∃ A, edgelist2adjacency
        ([((0 : ℤ), (1 : ℤ), (none : Option PyNum)), ((1 : ℤ), (2 : ℤ), none),
          ((2 : ℤ), (0 : ℤ), none)].map mkEdge) false = .ok A
      ∧ A.nRows = A.ncols
      ∧ (A.nRows : ℤ)
        = npMax ([((0 : ℤ), (1 : ℤ), (none : Option PyNum)), ((1 : ℤ), (2 : ℤ), none),
            ((2 : ℤ), (0 : ℤ), none)].map (fun e => e.1)
            ++ [((0 : ℤ), (1 : ℤ), (none : Option PyNum)), ((1 : ℤ), (2 : ℤ), none),
              ((2 : ℤ), (0 : ℤ), none)].map (fun e => e.2.1)) + 1 :=
  C2_adjacency_shape _ false (by decide) (by decide) (by decide)

/-- C3: `edgelist2biadjacency` computes its two dimensions independently
as max(rows)+1 and max(cols)+1, so the result can be non-square even with
overlapping index ranges; the doc example has shape (3, 2). -/
theorem C3_biadjacency_shape :
    (∀ (l : List (ℤ × ℤ × Option PyNum)) (w : Bool), l ≠ [] →
      (∀ e ∈ l, (e.2.2).isSome = w) →
      (∀ e ∈ l, inRange32 e.1 ∧ inRange32 e.2.1) →
      ∃ B, edgelist2biadjacency (l.map mkEdge) = .ok B
        ∧ (B.nRows : ℤ) = npMax (l.map (fun e => e.1)) + 1
        ∧ (B.ncols : ℤ) = npMax (l.map (fun e => e.2.1)) + 1)
    ∧ (∃ B, edgelist2biadjacency
          [[.int 0, .int 0], [.int 1, .int 0], [.int 1, .int 1], [.int 2, .int 1]]
          = .ok B ∧ B.nRows = 3 ∧ B.ncols = 2 ∧ B.nRows ≠ B.ncols) := by
  constructor
  · intro l w hne hw hb
    refine ⟨_, biadjacency_ok l w hne hw hb, ?_, ?_⟩
    · rw [nRows_buildCSR]
      have h1 := npMax_map_fst_nonneg l hne hb
      rw [Int.toNat_of_nonneg (by unfold rowDim; omega)]
      rfl
    · rw [ncols_buildCSR]
      have h2 := npMax_map_snd_nonneg l hne hb
      rw [Int.toNat_of_nonneg (by unfold colDim; omega)]
      rfl
  · exact ⟨⟨.bool, 2, [[(0, 1)], [(0, 1), (1, 1)], [(1, 1)]]⟩,
      by decide, by decide, by decide, by decide⟩

/-- Witness for C3 at the doc example. -/
theorem C3_witness :
    ∃ B, edgelist2biadjacency
        ([((0 : ℤ), (0 : ℤ), (none : Option PyNum)), ((1 : ℤ), (0 : ℤ), none),
          ((1 : ℤ), (1 : ℤ), none), ((2 : ℤ), (1 : ℤ), none)].map mkEdge) = .ok B
      ∧ (B.nRows : ℤ)
        = npMax ([((0 : ℤ), (0 : ℤ), (none : Option PyNum)), ((1 : ℤ), (0 : ℤ), none),
            ((1 : ℤ), (1 : ℤ), none), ((2 : ℤ), (1 : ℤ), none)].map (fun e => e.1)) + 1
      ∧ (B.ncols : ℤ)
        = npMax ([((0 : ℤ), (0 : ℤ), (none : Option PyNum)), ((1 : ℤ), (0 : ℤ), none),
            ((1 : ℤ), (1 : ℤ), none), ((2 : ℤ), (1 : ℤ), none)].map (fun e => e.2.1)) + 1 :=
  C3_biadjacency_shape.1 _ false (by decide) (by decide) (by decide)

/-- Counterexample to C4: on the empty edge list both conversions raise
IndexError (from 2-D slicing of the 1-D empty array), not the spec's typed
`EmptyInput`. -/
theorem C4_counterexample :
    edgelist2adjacency [] false ≠ .error .EmptyInput
    ∧ edgelist2biadjacency [] ≠ .error .EmptyInput := by
  decide

/-- C4 amended: on the empty edge list both conversions fail eagerly with
an IndexError raised while decoding the edges (before any matrix is
assembled) and never return a matrix. -/
theorem C4_amended :
    ∀ u, edgelist2adjacency [] u = .error .IndexError
      ∧ edgelist2biadjacency [] = .error .IndexError := by
  intro u
  cases u <;> exact ⟨rfl, rfl⟩

/-- Counterexample to C5: an index outside the int32 range does not raise
`IndexOverflow`; with row index 2^32 both conversions succeed. -/
theorem C5_counterexample :
    edgelist2adjacency [[.int (2 ^ 32), .int 1]] false ≠ .error .IndexOverflow
    ∧ edgelist2biadjacency [[.int (2 ^ 32), .int 1]] ≠ .error .IndexOverflow := by
  decide

/-- C5 amended: no input ever produces `IndexOverflow`; out-of-range
indices are silently wrapped modulo 2^32 by the int32 coercion, so row
index 2^32 is stored as row 0. -/
theorem C5_amended :
    (∀ el u, edgelist2adjacency el u ≠ .error .IndexOverflow)
    ∧ (∀ el, edgelist2biadjacency el ≠ .error .IndexOverflow)
    ∧ edgelist2adjacency [[.int (2 ^ 32), .int 1]] false
        = .ok ⟨.bool, 2, [[(1, 1)], []]⟩
    ∧ edgelist2biadjacency [[.int (2 ^ 32), .int 1]]
        = .ok ⟨.bool, 2, [[(1, 1)]]⟩ := by
  refine ⟨?_, ?_, by decide, by decide⟩
  · intro el u h
    rcases adjacency_cases el u with ⟨dt, nr, nc, es, hA⟩ | hA | hA <;>
      rw [hA] at h <;> exact absurd h (by simp)
  · intro el h
    rcases biadjacency_cases el with ⟨dt, nr, nc, es, hA⟩ | hA | hA <;>
      rw [hA] at h <;> exact absurd h (by simp)

lemma buildCSR_vals_one (nr nc : ℕ) (es : List (ℕ × ℕ × ℚ))
    (h1 : ∀ e ∈ es, e.2.2 = 1) :
    ∀ row ∈ (buildCSR .bool nr nc es).rows, ∀ p ∈ row, p.2 = 1 := by
  intro row hrow p hp
  unfold buildCSR at hrow
  simp only [List.mem_map] at hrow
  obtain ⟨r, _, rfl⟩ := hrow
  obtain ⟨c, v⟩ := p
  have hcv := ((mem_rowOf .bool es nc r c v).mp hp).2
  simp only [cellVal] at hcv
  by_cases hm : ((es.filter (fun e => e.1 == r && e.2.1 == c)).map (fun e => e.2.2)).isEmpty
  · rw [if_pos hm] at hcv
    exact absurd hcv (by simp)
  · rw [if_neg hm] at hcv
    have hv := Option.some_inj.mp hcv
    show v = 1
    rw [← hv]
    refine sumVals_bool_ones _ (fun hx => hm (by rw [hx]; rfl)) ?_
    intro w hw
    obtain ⟨e, he, rfl⟩ := List.mem_map.mp hw
    exact h1 e (List.mem_filter.mp he).1

/-- C6: an edge list of arity-2 (unweighted) records yields a boolean
matrix whose stored values are all the presence marker true; in particular
the triangle example has shape (3,3), 3 stored entries and a boolean
dtype. -/
theorem C6_unweighted_default :
    (∀ l : List (ℤ × ℤ × Option PyNum), l ≠ [] →
      (∀ e ∈ l, e.2.2 = none) →
      (∀ e ∈ l, inRange32 e.1 ∧ inRange32 e.2.1) →
      ∃ A, edgelist2adjacency (l.map mkEdge) false = .ok A
        ∧ A.dtype = .bool
        ∧ ∀ row ∈ A.rows, ∀ p ∈ row, p.2 = 1)
    ∧ edgelist2adjacency [[.int 0, .int 1], [.int 1, .int 2], [.int 2, .int 0]] false
        = .ok ⟨.bool, 3, [[(1, 1)], [(2, 1)], [(0, 1)]]⟩
    ∧ (⟨.bool, 3, [[(1, 1)], [(2, 1)], [(0, 1)]]⟩ : CSR).nRows = 3
    ∧ (⟨.bool, 3, [[(1, 1)], [(2, 1)], [(0, 1)]]⟩ : CSR).ncols = 3
    ∧ (⟨.bool, 3, [[(1, 1)], [(2, 1)], [(0, 1)]]⟩ : CSR).nnz = 3 := by
  refine ⟨?_, by decide, by decide, by decide, by decide⟩
  intro l hne hnone hb
  have hw : ∀ e ∈ l, (e.2.2).isSome = false := by
    intro e he
    rw [hnone e he]
    rfl
  refine ⟨_, adjacency_ok l false hne hw hb, rfl, ?_⟩
  refine buildCSR_vals_one _ _ _ ?_
  intro d hd
  obtain ⟨e, he, rfl⟩ := List.mem_map.mp hd
  show (decodeE e).2.2 = 1
  unfold decodeE
  rw [hnone e he]

/-- Witness for C6 at the triangle example. -/
theorem C6_witness :
    ∃ A, edgelist2adjacency
        ([((0 : ℤ), (1 : ℤ), (none : Option PyNum)), ((1 : ℤ), (2 : ℤ), none),
          ((2 : ℤ), (0 : ℤ), none)].map mkEdge) false = .ok A
      ∧ A.dtype = .bool
      ∧ ∀ row ∈ A.rows, ∀ p ∈ row, p.2 = 1 :=
  C6_unweighted_default.1 _ (by decide) (by decide) (by decide)

/-- C7: `undirected=true` returns the default result combined entry-wise
with its transpose (the modelled `directed2undirected`), hence symmetric;
the triangle yields shape (3,3) with 6 stored entries; and
`edgelist2biadjacency` applies no symmetrization, as its output on a
single edge stores no mirror entry and is not even square. -/
theorem C7_symmetrization :
    (∀ el, edgelist2adjacency el true
        = (edgelist2adjacency el false).map directed2undirected)
    ∧ (∀ A : CSR, A.nRows = A.ncols → ∀ i j,
        (directed2undirected A).entry i j = (directed2undirected A).entry j i)
    ∧ edgelist2adjacency [[.int 0, .int 1], [.int 1, .int 2], [.int 2, .int 0]] true
        = .ok ⟨.bool, 3, [[(1, 1), (2, 1)], [(0, 1), (2, 1)], [(0, 1), (1, 1)]]⟩
    ∧ (⟨.bool, 3, [[(1, 1), (2, 1)], [(0, 1), (2, 1)], [(0, 1), (1, 1)]]⟩ : CSR).nnz = 6
    ∧ (∃ B, edgelist2biadjacency [[.int 0, .int 1]] = .ok B
        ∧ B.entry 0 1 = 1 ∧ B.entry 1 0 = 0 ∧ B.nRows ≠ B.ncols) := by
  refine ⟨adjacency_undirected_eq, d2u_entry_symm, by decide, by decide, ?_⟩
  exact ⟨⟨.bool, 2, [[(1, 1)]]⟩, by decide, by decide, by decide, by decide⟩

/-- Witness for C7's symmetry hypothesis at a concrete square matrix. -/
theorem C7_witness :
    (directed2undirected ⟨.bool, 2, [[(1, 1)], []]⟩).entry 0 1
      = (directed2undirected ⟨.bool, 2, [[(1, 1)], []]⟩).entry 1 0 :=
  C7_symmetrization.2.1 ⟨.bool, 2, [[(1, 1)], []]⟩ rfl 0 1

/-- C8: every matrix either conversion returns stores, within each row,
strictly increasing column indices, and an empty row shows up as equal
consecutive row-pointer values. -/
theorem C8_csr_invariants :
    ∀ (el : List (List PyNum)) (u : Bool) (A : CSR),
      (edgelist2adjacency el u = .ok A ∨ edgelist2biadjacency el = .ok A) →
      (∀ row ∈ A.rows, row.Pairwise (fun p q => p.1 < q.1))
      ∧ (∀ r, r < A.nRows →
          (A.rows.getD r [] = [] ↔ A.indptr (r + 1) = A.indptr r)) := by
  intro el u A h
  constructor
  · rcases h with h | h
    · rcases adjacency_cases el u with ⟨dt, nr, nc, es, hA⟩ | hA | hA
      · rw [hA] at h
        rw [(Except.ok.inj h).symm]
        exact buildCSR_rows_sorted dt nr nc es
      · rw [hA] at h
        exact absurd h (by simp)
      · rw [hA] at h
        exact absurd h (by simp)
    · rcases biadjacency_cases el with ⟨dt, nr, nc, es, hA⟩ | hA | hA
      · rw [hA] at h
        rw [(Except.ok.inj h).symm]
        exact buildCSR_rows_sorted dt nr nc es
      · rw [hA] at h
        exact absurd h (by simp)
      · rw [hA] at h
        exact absurd h (by simp)
  · intro r hr
    exact indptr_empty_iff A r hr

/-- Witness for C8 at a concrete two-row matrix with an empty second
row. -/
theorem C8_witness :
    (∀ row ∈ (⟨.bool, 2, [[(1, 1)], []]⟩ : CSR).rows,
        row.Pairwise (fun p q => p.1 < q.1))
    ∧ (∀ r, r < (⟨.bool, 2, [[(1, 1)], []]⟩ : CSR).nRows →
        ((⟨.bool, 2, [[(1, 1)], []]⟩ : CSR).rows.getD r [] = []
          ↔ (⟨.bool, 2, [[(1, 1)], []]⟩ : CSR).indptr (r + 1)
            = (⟨.bool, 2, [[(1, 1)], []]⟩ : CSR).indptr r)) :=
  C8_csr_invariants [[.int 0, .int 1]] false ⟨.bool, 2, [[(1, 1)], []]⟩
    (Or.inl (by decide))

lemma edgeDtype_false (l : List (ℤ × ℤ × Option PyNum)) :
    edgeDtype l false = .bool := rfl

/-- C9: a weighted edge list whose cells are all Python ints yields an
integer (int64) dtype; one fractional field anywhere forces the whole
value column — integer-written weights included — to float64, because the
values are sliced from the single homogeneously-typed array. -/
theorem C9_dtype_inference :
    (∀ l : List (ℤ × ℤ × Option PyNum), l ≠ [] →
      (∀ e ∈ l, (e.2.2).isSome = true) →
      (∀ e ∈ l, inRange32 e.1 ∧ inRange32 e.2.1) →
      ∃ A B, edgelist2adjacency (l.map mkEdge) false = .ok A
        ∧ edgelist2biadjacency (l.map mkEdge) = .ok B
        ∧ ((∀ e ∈ l, e.2.2.all PyNum.isInt = true) →
            A.dtype = .int64 ∧ B.dtype = .int64)
        ∧ ((∃ e ∈ l, ∃ q : ℚ, e.2.2 = some (.float q) ∧ q.den ≠ 1) →
            A.dtype = .float64 ∧ B.dtype = .float64))
    ∧ (∃ A, edgelist2adjacency
          ([((0 : ℤ), (1 : ℤ), some (PyNum.int 2)),
            ((2 : ℤ), (3 : ℤ), some (PyNum.int 4))].map mkEdge) false = .ok A
        ∧ A.dtype = .int64)
    ∧ (∃ A, edgelist2adjacency
          ([((0 : ℤ), (1 : ℤ), some (PyNum.int 2)),
            ((2 : ℤ), (3 : ℤ), some (PyNum.float (1 / 2)))].map mkEdge) false = .ok A
        ∧ A.dtype = .float64 ∧ A.entry 0 1 = 2) := by
  refine ⟨?g1, ?g2, ?g3⟩
  case g1 =>
    intro l hne hw hb
    refine ⟨_, _, adjacency_ok l true hne hw hb, biadjacency_ok l true hne hw hb,
      ?_, ?_⟩
    · intro hint
      have hd : npDtype l = .int64 := by
        unfold npDtype
        rw [if_pos (List.all_eq_true.mpr hint)]
      exact ⟨by rw [dtype_buildCSR, edgeDtype_true, hd],
        by rw [dtype_buildCSR, edgeDtype_true, hd]⟩
    · rintro ⟨e, he, q, hq, hden⟩
      have hd : npDtype l = .float64 := by
        unfold npDtype
        rw [if_neg]
        intro hall
        have h2 := List.all_eq_true.mp hall e he
        rw [hq] at h2
        exact absurd h2 (by simp [PyNum.isInt])
      exact ⟨by rw [dtype_buildCSR, edgeDtype_true, hd],
        by rw [dtype_buildCSR, edgeDtype_true, hd]⟩
  case g2 =>
    refine ⟨_, adjacency_ok
      [((0 : ℤ), (1 : ℤ), some (PyNum.int 2)), ((2 : ℤ), (3 : ℤ), some (PyNum.int 4))]
      true (by decide) (by decide) (by decide), by decide⟩
  case g3 =>
    refine ⟨_, adjacency_ok
      [((0 : ℤ), (1 : ℤ), some (PyNum.int 2)),
        ((2 : ℤ), (3 : ℤ), some (PyNum.float (1 / 2)))]
      true (by decide) (by decide) (by decide), by decide, ?_⟩
    have h := entry_at_coord
      (edgeDtype [((0 : ℤ), (1 : ℤ), some (PyNum.int 2)),
        ((2 : ℤ), (3 : ℤ), some (PyNum.float (1 / 2)))] true)
      ((adjDim [((0 : ℤ), (1 : ℤ), some (PyNum.int 2)),
        ((2 : ℤ), (3 : ℤ), some (PyNum.float (1 / 2)))]).toNat)
      ((adjDim [((0 : ℤ), (1 : ℤ), some (PyNum.int 2)),
        ((2 : ℤ), (3 : ℤ), some (PyNum.float (1 / 2)))]).toNat)
      [((0 : ℤ), (1 : ℤ), some (PyNum.int 2)),
        ((2 : ℤ), (3 : ℤ), some (PyNum.float (1 / 2)))]
      0 1 (by decide) (by decide) (by decide)
    rw [h.2,
      (by decide : wtsAt [((0 : ℤ), (1 : ℤ), some (PyNum.int 2)),
        ((2 : ℤ), (3 : ℤ), some (PyNum.float (1 / 2)))] 0 1 = [2]),
      edgeDtype_true, sumVals_nonbool _ (npDtype_ne_bool _) _]
    norm_num [List.sum_cons, List.sum_nil]

/-- Witness for C9's general part at a two-edge integer-weighted list. -/
theorem C9_witness :
    ∃ A B, edgelist2adjacency
        ([((0 : ℤ), (1 : ℤ), some (PyNum.int 5)),
          ((1 : ℤ), (0 : ℤ), some (PyNum.int 7))].map mkEdge) false = .ok A
      ∧ edgelist2biadjacency
          ([((0 : ℤ), (1 : ℤ), some (PyNum.int 5)),
            ((1 : ℤ), (0 : ℤ), some (PyNum.int 7))].map mkEdge) = .ok B
      ∧ ((∀ e ∈ [((0 : ℤ), (1 : ℤ), some (PyNum.int 5)),
            ((1 : ℤ), (0 : ℤ), some (PyNum.int 7))], e.2.2.all PyNum.isInt = true) →
          A.dtype = .int64 ∧ B.dtype = .int64)
      ∧ ((∃ e ∈ [((0 : ℤ), (1 : ℤ), some (PyNum.int 5)),
            ((1 : ℤ), (0 : ℤ), some (PyNum.int 7))], ∃ q : ℚ,
              e.2.2 = some (.float q) ∧ q.den ≠ 1) →
          A.dtype = .float64 ∧ B.dtype = .float64) :=
  C9_dtype_inference.1 _ (by decide) (by decide) (by decide)

/-- C10: an unweighted edge list with duplicate coordinates keeps the
boolean dtype and stores a single true entry at the duplicated coordinate
(logical-or saturation), not a numeric multiplicity. -/
theorem C10_bool_duplicates :
    (∀ l : List (ℤ × ℤ × Option PyNum), l ≠ [] →
      (∀ e ∈ l, e.2.2 = none) →
      (∀ e ∈ l, inRange32 e.1 ∧ inRange32 e.2.1) →
      ∃ A B, edgelist2adjacency (l.map mkEdge) false = .ok A
        ∧ edgelist2biadjacency (l.map mkEdge) = .ok B
        ∧ A.dtype = .bool ∧ B.dtype = .bool
        ∧ ∀ r c : ℕ, wtsAt l r c ≠ [] →
            storedAt A r c = 1 ∧ A.entry r c = 1
              ∧ storedAt B r c = 1 ∧ B.entry r c = 1)
    ∧ edgelist2adjacency [[.int 0, .int 1], [.int 0, .int 1]] false
        = .ok ⟨.bool, 2, [[(1, 1)], []]⟩
    ∧ (⟨.bool, 2, [[(1, 1)], []]⟩ : CSR).nnz = 1 := by
  refine ⟨?_, by decide, by decide⟩
  intro l hne hnone hb
  have hw : ∀ e ∈ l, (e.2.2).isSome = false := by
    intro e he
    rw [hnone e he]
    rfl
  refine ⟨_, _, adjacency_ok l false hne hw hb, biadjacency_ok l false hne hw hb,
    rfl, rfl, ?_⟩
  intro r c hm
  have hbd := wtsAt_bounds l hb r c hm
  have hall : ∀ v ∈ wtsAt l r c, v = 1 := by
    intro v hv
    unfold wtsAt at hv
    obtain ⟨d, hd, rfl⟩ := List.mem_map.mp hv
    obtain ⟨e, he, rfl⟩ := List.mem_map.mp (List.mem_filter.mp hd).1
    show (decodeE e).2.2 = 1
    unfold decodeE
    rw [hnone e he]
  have hA := entry_at_coord (edgeDtype l false) (adjDim l).toNat (adjDim l).toNat
    l r c hbd.1 hbd.2.1 hm
  have hB := entry_at_coord (edgeDtype l false) (rowDim l).toNat (colDim l).toNat
    l r c hbd.2.2.1 hbd.2.2.2 hm
  refine ⟨hA.1, ?_, hB.1, ?_⟩
  · rw [hA.2, edgeDtype_false]
    exact sumVals_bool_ones _ hm hall
  · rw [hB.2, edgeDtype_false]
    exact sumVals_bool_ones _ hm hall

/-- Witness for C10 at the duplicated unweighted pair. -/
theorem C10_witness :
    ∃ A B, edgelist2adjacency
        ([((0 : ℤ), (1 : ℤ), (none : Option PyNum)),
          ((0 : ℤ), (1 : ℤ), none)].map mkEdge) false = .ok A
      ∧ edgelist2biadjacency
          ([((0 : ℤ), (1 : ℤ), (none : Option PyNum)),
            ((0 : ℤ), (1 : ℤ), none)].map mkEdge) = .ok B
      ∧ A.dtype = .bool ∧ B.dtype = .bool
      ∧ ∀ r c : ℕ, wtsAt [((0 : ℤ), (1 : ℤ), (none : Option PyNum)),
            ((0 : ℤ), (1 : ℤ), none)] r c ≠ [] →
          storedAt A r c = 1 ∧ A.entry r c = 1
            ∧ storedAt B r c = 1 ∧ B.entry r c = 1 :=
  C10_bool_duplicates.1 _ (by decide) (by decide) (by decide)

/-- Witness for C5's amended no-IndexOverflow guarantee at a concrete
input. -/
theorem C5_witness :
    edgelist2adjacency [[.int 0, .int 1]] false ≠ .error .IndexOverflow
    ∧ edgelist2biadjacency [[.int 0, .int 1]] ≠ .error .IndexOverflow :=
  ⟨C5_amended.1 [[.int 0, .int 1]] false, C5_amended.2.1 [[.int 0, .int 1]]⟩
